import Mathlib

/-
Verification development for the LuAI legal-assistant core flow.

The TypeScript sources are shallowly embedded as pure Lean functions:
  - tools/webScraper.ts and tools/pdfParser.ts share the whitespace
    normalization `text.replace(/\s+/g, " ").trim()`, embedded as
    `normalizeWs` on the character-list representation of strings;
  - webAgent.ts / pdfAgent.ts truncate source text with
    `.slice(0, 150_000)`, embedded as `jsSliceTo`;
  - agents/orchestrator.ts sequentially runs the web and PDF agents,
    issues one synthesis call, and splits the reply on the first
    double newline (`fullText.split("\n\n")` + rest re-joined);
  - config.ts reads ANTHROPIC_API_KEY from the process environment and
    throws when the value is absent or empty (JS falsiness).

External effects (HTTP GET + cheerio text extraction, fs.readFileSync,
the pdf-parse library, and the LLM API) are modelled as oracle fields of
an `Env` record; everything the repository itself computes is embedded
directly.  Timestamps (`new Date().toISOString()`) are modelled by the
oracle field `nowIso`.  Each agent records the model calls it issues in
a trace list, so call-count and call-order claims are statements about
that trace.
-/

namespace LuAI

/-! ## Whitespace normalization (webScraper.ts, pdfParser.ts) -/

/-- The character class of the JS regex `\s` (also the set stripped by
`String.prototype.trim`): space, tab, LF, VT, FF, CR, NBSP, and the
Unicode space separators, line/paragraph separators and BOM. -/
def isJsWs (c : Char) : Bool :=
  c = ' ' || c = '\t' || c = '\n' || c = '\r' || c.toNat = 0x0b || c.toNat = 0x0c ||
  c.toNat = 0xa0 || c.toNat = 0x1680 || (0x2000 ≤ c.toNat && c.toNat ≤ 0x200a) ||
  c.toNat = 0x2028 || c.toNat = 0x2029 || c.toNat = 0x202f || c.toNat = 0x205f ||
  c.toNat = 0x3000 || c.toNat = 0xfeff

/-- One left-to-right pass of `replace(/\s+/g, " ")`: each maximal run of
whitespace characters is replaced by a single space (emitted at the start
of the run).  The flag records whether the previous character belonged to
a whitespace run whose replacement space has already been emitted. -/
def collapseAux : Bool → List Char → List Char
  | _, [] => []
  | prevWs, c :: cs =>
      if isJsWs c then
        if prevWs then collapseAux true cs
        else ' ' :: collapseAux true cs
      else c :: collapseAux false cs

/-- `text.replace(/\s+/g, " ")`. -/
def collapseWsRuns (s : String) : String := ⟨collapseAux false s.data⟩

/-- Remove the trailing run of whitespace characters. -/
def dropTrailingWs : List Char → List Char
  | [] => []
  | c :: cs =>
      match dropTrailingWs cs with
      | [] => if isJsWs c then [] else [c]
      | r => c :: r

/-- JS `String.prototype.trim`: strip leading and trailing whitespace. -/
def jsTrim (s : String) : String := ⟨dropTrailingWs (s.data.dropWhile isJsWs)⟩

/-- The normalization applied identically by `fetchWebPage`
(webScraper.ts) and `parsePdfFile` / `parsePdfBuffer` (pdfParser.ts):
`text.replace(/\s+/g, " ").trim()`. -/
def normalizeWs (s : String) : String := jsTrim (collapseWsRuns s)

/-- Invariant of collapsed text: every whitespace character is a plain
space (used to prove idempotence of `normalizeWs`). -/
def allWsSpace : List Char → Bool
  | [] => true
  | c :: cs => (!isJsWs c || c = ' ') && allWsSpace cs

/-- Invariant of collapsed text: no two adjacent whitespace characters
(used to prove idempotence of `normalizeWs`). -/
def noAdjWs : List Char → Bool
  | c :: d :: rest => (!(isJsWs c && isJsWs d)) && noAdjWs (d :: rest)
  | _ => true

/-! ## Truncation (webAgent.ts, pdfAgent.ts) -/

/-- JS `s.slice(0, n)` for a nonnegative bound `n`: the first `n`
characters of `s` (all of `s` when it is shorter). -/
def jsSliceTo (n : Nat) (s : String) : String := ⟨s.data.take n⟩

/-- webAgent.ts: `const safeContent = page.content.slice(0, 150_000)`. -/
def webSafeContent (content : String) : String := jsSliceTo 150000 content

/-- pdfAgent.ts: `const safeText = parsed.text.slice(0, 150_000)`. -/
def pdfSafeText (text : String) : String := jsSliceTo 150000 text

/-! ## Splitting the synthesis reply on "\n\n" (orchestrator.ts) -/

/-- Locate the first occurrence of the two-character separator
`"\n\n"`: `findDnl l = some (pre, post)` splits `l` as
`pre ++ '\n' :: '\n' :: post` at the leftmost occurrence, and
`findDnl l = none` means `l` contains no double newline. -/
def findDnl : List Char → Option (List Char × List Char)
  | [] => none
  | [_] => none
  | c :: d :: rest =>
      if c = '\n' ∧ d = '\n' then some ([], rest)
      else
        match findDnl (d :: rest) with
        | none => none
        | some (pre, post) => some (c :: pre, post)

/-- One-pass implementation of JS `fullText.split("\n\n")`: `acc` holds
the (reversed) characters of the piece currently being scanned. -/
def splitDnlAux (acc : List Char) : List Char → List (List Char)
  | [] => [acc.reverse]
  | [c] => [(c :: acc).reverse]
  | c :: d :: rest =>
      if c = '\n' ∧ d = '\n' then acc.reverse :: splitDnlAux [] rest
      else splitDnlAux (c :: acc) (d :: rest)

/-- JS `fullText.split("\n\n")` (non-empty separator: leftmost,
non-overlapping matches; always at least one piece). -/
def splitDnl (l : List Char) : List (List Char) := splitDnlAux [] l

/-- JS `rest.join("\n\n")`. -/
def joinDnl : List (List Char) → List Char
  | [] => []
  | [x] => x
  | x :: y :: xs => x ++ '\n' :: '\n' :: joinDnl (y :: xs)

/-- orchestrator.ts:
`const [firstParagraph, ...rest] = fullText.split("\n\n")` with
`decision: firstParagraph ?? fullText` and
`reasoning: rest.join("\n\n")`. -/
def splitReply (fullText : String) : String × String :=
  (⟨(splitDnl fullText.data).headD fullText.data⟩,
   ⟨joinDnl (splitDnl fullText.data).tail⟩)

/-! ## Data model -/

/-- Error taxonomy of the spec: network failure (Page Fetcher), file
loading / PDF parsing failure (Document Parser), model-call failure
(agents and synthesis), missing credential (config.ts startup check). -/
inductive LuError where
  | network : String → LuError
  | fileNotFound : String → LuError
  | pdfInvalid : String → LuError
  | upstream : String → LuError
  | configMissing : String → LuError
deriving DecidableEq, Repr

/-- Identity of one LLM API call (`client.messages.stream`): the per-URL
web-analysis call, the per-PDF document-analysis call, or the final
synthesis call of the orchestrator. -/
inductive ModelCall where
  | webAnalysis : String → ModelCall
  | pdfAnalysis : String → ModelCall
  | synthesis : ModelCall
deriving DecidableEq, Repr

/-- webScraper.ts `WebPage`. -/
structure FetchedPage where
  url : String
  title : String
  content : String
  fetchedAt : String
deriving DecidableEq, Repr

/-- Output of the external `pdf-parse` library: raw extracted text and
page count. -/
structure PdfData where
  text : String
  numpages : Nat
deriving DecidableEq, Repr

/-- pdfParser.ts `ParsedPdf`. -/
structure ParsedPdf where
  filePath : String
  text : String
  numPages : Nat
  parsedAt : String
deriving DecidableEq, Repr

/-- orchestrator.ts `CaseInput`; `urls` and `pdfPaths` are optional. -/
structure CaseInput where
  query : String
  urls : Option (List String) := none
  pdfPaths : Option (List String) := none
deriving DecidableEq, Repr

/-- orchestrator.ts `CaseResult`. -/
structure CaseResult where
  decision : String
  reasoning : String
  sources : List String
deriving DecidableEq, Repr

/-- Oracles for the external effects: `httpGet` is axios + cheerio text
extraction (returning raw title and raw body text for a URL, or a
network error), `readFile` is `fs.readFileSync` (`none` when the path
does not resolve), `pdfParse` is the external pdf-parse library
(`error` when the bytes are not a valid PDF), `resolvePath` is
`path.resolve`, `model` gives the text of the model's reply for each
issued call (or an upstream failure), and `nowIso` is
`new Date().toISOString()`. -/
structure Env where
  httpGet : String → Except LuError (String × String)
  readFile : String → Option (List Nat)
  pdfParse : List Nat → Except String PdfData
  resolvePath : String → String
  model : ModelCall → String → Except LuError String
  nowIso : String

/-! ## Tools -/

/-- webScraper.ts `fetchWebPage`: HTTP GET, strip non-content nodes
(inside the `httpGet` oracle), then `title.trim()` and
`body.text().replace(/\s+/g, " ").trim()`. -/
def fetchWebPage (env : Env) (url : String) : Except LuError FetchedPage :=
  match env.httpGet url with
  | Except.error e => Except.error e
  | Except.ok (title, body) =>
      Except.ok { url := url, title := jsTrim title,
                  content := normalizeWs body, fetchedAt := env.nowIso }

/-- pdfParser.ts `parsePdfFile`: resolve the path, read the bytes
(`FileNotFoundError` when the path does not resolve), run pdf-parse
(`ParseError` when the bytes are not a valid PDF), then normalize the
extracted text and keep the page count. -/
def parsePdfFile (env : Env) (filePath : String) : Except LuError ParsedPdf :=
  let absolutePath := env.resolvePath filePath
  match env.readFile absolutePath with
  | none => Except.error (LuError.fileNotFound absolutePath)
  | some buffer =>
      match env.pdfParse buffer with
      | Except.error msg => Except.error (LuError.pdfInvalid msg)
      | Except.ok data =>
          Except.ok { filePath := absolutePath, text := normalizeWs data.text,
                      numPages := data.numpages, parsedAt := env.nowIso }

/-! ## Analysis agents -/

/-- webAgent.ts user-turn content (template literal around the truncated
page content). -/
def webAgentUserContent (page : FetchedPage) (url question : String) : String :=
  "Página analisada: " ++ page.title ++ " (" ++ url ++ ")\nData de acesso: " ++
  page.fetchedAt ++ "\n\nConteúdo:\n" ++ webSafeContent page.content ++
  "\n\n---\nPergunta: " ++ question

/-- pdfAgent.ts user-turn content (template literal around the truncated
document text). -/
def pdfAgentUserContent (parsed : ParsedPdf) (question : String) : String :=
  "Documento analisado: " ++ parsed.filePath ++ "\nNúmero de páginas: " ++
  toString parsed.numPages ++ "\nData de análise: " ++ parsed.parsedAt ++
  "\n\nConteúdo extraído:\n" ++ pdfSafeText parsed.text ++
  "\n\n---\nPergunta: " ++ question

/-- webAgent.ts: fetch the page, truncate, issue one model call; the
trace records the model call when (and only when) it is issued — a
fetch failure aborts before any model call. -/
def webAgent (env : Env) (url question : String) :
    List ModelCall × Except LuError String :=
  match fetchWebPage env url with
  | Except.error e => ([], Except.error e)
  | Except.ok page =>
      match env.model (ModelCall.webAnalysis url) (webAgentUserContent page url question) with
      | Except.error e => ([ModelCall.webAnalysis url], Except.error e)
      | Except.ok reply => ([ModelCall.webAnalysis url], Except.ok reply)

/-- pdfAgent.ts (file-path case, as used by the orchestrator): parse the
PDF, truncate, issue one model call. -/
def pdfAgent (env : Env) (pdfPath question : String) :
    List ModelCall × Except LuError String :=
  match parsePdfFile env pdfPath with
  | Except.error e => ([], Except.error e)
  | Except.ok parsed =>
      match env.model (ModelCall.pdfAnalysis pdfPath) (pdfAgentUserContent parsed question) with
      | Except.error e => ([ModelCall.pdfAnalysis pdfPath], Except.error e)
      | Except.ok reply => ([ModelCall.pdfAnalysis pdfPath], Except.ok reply)

/-! ## Orchestrator -/

/-- orchestrator.ts: `` `## Fonte web: ${url}\n${result}` ``. -/
def webBlock (url result : String) : String :=
  "## Fonte web: " ++ url ++ "\n" ++ result

/-- orchestrator.ts: `` `## Documento PDF: ${pdfPath}\n${result}` ``. -/
def pdfBlock (pdfPath result : String) : String :=
  "## Documento PDF: " ++ pdfPath ++ "\n" ++ result

/-- orchestrator.ts: `contextParts.join("\n\n---\n\n")`. -/
def joinContextParts : List String → String
  | [] => ""
  | [x] => x
  | x :: y :: xs => x ++ "\n\n---\n\n" ++ joinContextParts (y :: xs)

/-- orchestrator.ts: the synthesis user turn; the two template branches
of `context ? ... : ...` (JS string truthiness: empty string is falsy). -/
def synthesisUserContent (query context : String) : String :=
  if context = "" then "Caso / Consulta:\n" ++ query
  else
    "Caso / Consulta:\n" ++ query ++
    "\n\n---\n\nInformações coletadas pelos agentes:\n" ++ context

/-- Phase 1 of `orchestrate` (the `for (const url of input.urls ?? [])`
loop): run the web agent per URL in order, accumulating the model-call
trace, the labeled context parts and the `sources` entries; the first
failure aborts the loop and surfaces the error unchanged. -/
def collectWeb (env : Env) (query : String) :
    List String → List ModelCall × Except LuError (List String × List String)
  | [] => ([], Except.ok ([], []))
  | url :: rest =>
      match webAgent env url query with
      | (t, Except.error e) => (t, Except.error e)
      | (t, Except.ok result) =>
          match collectWeb env query rest with
          | (ts, Except.error e) => (t ++ ts, Except.error e)
          | (ts, Except.ok (ctx, srcs)) =>
              (t ++ ts, Except.ok (webBlock url result :: ctx, url :: srcs))

/-- Phase 2 of `orchestrate` (the `for (const pdfPath of input.pdfPaths
?? [])` loop), same shape as `collectWeb`. -/
def collectPdf (env : Env) (query : String) :
    List String → List ModelCall × Except LuError (List String × List String)
  | [] => ([], Except.ok ([], []))
  | pdfPath :: rest =>
      match pdfAgent env pdfPath query with
      | (t, Except.error e) => (t, Except.error e)
      | (t, Except.ok result) =>
          match collectPdf env query rest with
          | (ts, Except.error e) => (t ++ ts, Except.error e)
          | (ts, Except.ok (ctx, srcs)) =>
              (t ++ ts, Except.ok (pdfBlock pdfPath result :: ctx, pdfPath :: srcs))

/-- orchestrator.ts `orchestrate`: web loop, PDF loop, one synthesis
call, then the heuristic decision/reasoning split.  The first component
is the trace of issued model calls; the second is the returned
`CaseResult` or the propagated error. -/
def orchestrate (env : Env) (input : CaseInput) :
    List ModelCall × Except LuError CaseResult :=
  match collectWeb env input.query (input.urls.getD []) with
  | (wt, Except.error e) => (wt, Except.error e)
  | (wt, Except.ok (wCtx, wSrcs)) =>
      match collectPdf env input.query (input.pdfPaths.getD []) with
      | (pt, Except.error e) => (wt ++ pt, Except.error e)
      | (pt, Except.ok (pCtx, pSrcs)) =>
          let context := joinContextParts (wCtx ++ pCtx)
          match env.model ModelCall.synthesis (synthesisUserContent input.query context) with
          | Except.error e => (wt ++ pt ++ [ModelCall.synthesis], Except.error e)
          | Except.ok fullText =>
              (wt ++ pt ++ [ModelCall.synthesis],
               Except.ok { decision := (splitReply fullText).1,
                           reasoning := (splitReply fullText).2,
                           sources := wSrcs ++ pSrcs })

/-! ## Configuration (config.ts, index.ts) -/

/-- config.ts `Config` record (the model-identifier constant carries no
behaviour relevant here and is not modelled). -/
structure Config where
  anthropicApiKey : String
deriving DecidableEq, Repr

/-- config.ts: `anthropicApiKey: process.env.ANTHROPIC_API_KEY ?? ""`
followed by `if (!config.anthropicApiKey) throw new Error(...)`.
JS string falsiness makes the empty string behave like an unset
variable.  `envApiKey = none` models an unset environment variable. -/
def loadConfig (envApiKey : Option String) : Except LuError Config :=
  let key := envApiKey.getD ""
  if key = "" then
    Except.error (LuError.configMissing
      "ANTHROPIC_API_KEY is not set. Copy .env.example to .env and add your key.")
  else Except.ok { anthropicApiKey := key }

/-- index.ts process run: the config module is evaluated when the
orchestrator module is imported, before `main` runs, so the credential
check happens before any fetch, parse, or model call; on success the
hard-coded case is handed to `orchestrate`. -/
def runMain (envApiKey : Option String) (env : Env) (input : CaseInput) :
    List ModelCall × Except LuError CaseResult :=
  match loadConfig envApiKey with
  | Except.error e => ([], Except.error e)
  | Except.ok _ => orchestrate env input

/-! ## Concrete fixtures used by witness theorems -/

deriving instance DecidableEq for Except

/-- Oracle environment in which every external effect succeeds. -/
def envOk : Env where
  httpGet := fun url => Except.ok ("Título da página", " corpo  da página " ++ url)
  readFile := fun _ => some [37, 80, 68, 70]
  pdfParse := fun _ => Except.ok { text := "texto  extraído ", numpages := 2 }
  resolvePath := fun p => "/abs/" ++ p
  model := fun _ _ => Except.ok "DECISÃO: favorável\n\nFUNDAMENTAÇÃO: EC 103/2019"
  nowIso := "2024-01-01T00:00:00.000Z"

/-- Like `envOk`, but the HTTP GET of one URL fails. -/
def envBadUrl : Env where
  httpGet := fun url =>
    if url = "https://bad" then Except.error (LuError.network "timeout of 30000ms exceeded")
    else Except.ok ("Título", "corpo")
  readFile := envOk.readFile
  pdfParse := envOk.pdfParse
  resolvePath := envOk.resolvePath
  model := envOk.model
  nowIso := envOk.nowIso

/-- File-system / PDF oracles with one unresolvable path, one invalid
PDF and one well-formed PDF. -/
def envPdfMix : Env where
  httpGet := envOk.httpGet
  readFile := fun p =>
    if p = "/abs/missing.pdf" then none
    else if p = "/abs/bad.pdf" then some [0] else some [37, 80, 68, 70]
  pdfParse := fun b =>
    if b = [0] then Except.error "Invalid PDF structure"
    else Except.ok { text := "Nome:  João  Silva ", numpages := 3 }
  resolvePath := envOk.resolvePath
  model := envOk.model
  nowIso := envOk.nowIso

/-- One URL and one PDF. -/
def caseBoth : CaseInput :=
  { query := "consulta", urls := some ["https://a"], pdfPaths := some ["cnis.pdf"] }

/-- A duplicated URL plus one PDF (duplicates must be preserved). -/
def caseDup : CaseInput :=
  { query := "consulta", urls := some ["https://a", "https://a"],
    pdfPaths := some ["cnis.pdf"] }

/-- Two URLs (the second failing under `envBadUrl`) and one PDF. -/
def caseBad : CaseInput :=
  { query := "consulta", urls := some ["https://ok", "https://bad"],
    pdfPaths := some ["doc.pdf"] }

/-- The result `orchestrate envOk caseDup` returns. -/
def caseDupResult : CaseResult :=
  { decision := "DECISÃO: favorável", reasoning := "FUNDAMENTAÇÃO: EC 103/2019",
    sources := ["https://a", "https://a", "cnis.pdf"] }

/-- A string strictly longer than the 150000-character truncation bound. -/
def longText : String := ⟨List.replicate 150001 'a'⟩

/-! ## Lemmas about the double-newline split -/

theorem findDnl_eq : ∀ (l pre post : List Char), findDnl l = some (pre, post) →
    l = pre ++ '\n' :: '\n' :: post := by
  intro l
  induction l with
  | nil => intro pre post h; simp [findDnl] at h
  | cons c cs ih =>
    intro pre post h
    cases cs with
    | nil => simp [findDnl] at h
    | cons d rest =>
      by_cases hc : c = '\n' ∧ d = '\n'
      · simp only [findDnl, if_pos hc] at h
        injection h with h'
        injection h' with h1 h2
        subst h1 h2
        simp [hc.1, hc.2]
      · simp only [findDnl, if_neg hc] at h
        cases hfd : findDnl (d :: rest) with
        | none => rw [hfd] at h; simp at h
        | some pp =>
          obtain ⟨pre', post'⟩ := pp
          rw [hfd] at h
          simp only [Option.some.injEq, Prod.mk.injEq] at h
          obtain ⟨h1, h2⟩ := h
          subst h1 h2
          rw [ih pre' post' hfd]
          simp

theorem findDnl_pre_none : ∀ (l pre post : List Char), findDnl l = some (pre, post) →
    findDnl pre = none := by
  intro l
  induction l with
  | nil => intro pre post h; simp [findDnl] at h
  | cons c cs ih =>
    intro pre post h
    cases cs with
    | nil => simp [findDnl] at h
    | cons d rest =>
      by_cases hc : c = '\n' ∧ d = '\n'
      · simp only [findDnl, if_pos hc] at h
        injection h with h'
        injection h' with h1 h2
        subst h1
        simp [findDnl]
      · simp only [findDnl, if_neg hc] at h
        cases hfd : findDnl (d :: rest) with
        | none => rw [hfd] at h; simp at h
        | some pp =>
          obtain ⟨pre', post'⟩ := pp
          rw [hfd] at h
          simp only [Option.some.injEq, Prod.mk.injEq] at h
          obtain ⟨h1, h2⟩ := h
          subst h1 h2
          have hpre' := ih pre' post' hfd
          cases hp : pre' with
          | nil => simp [findDnl]
          | cons e pre'' =>
            subst hp
            have hde : d = e := by
              have := findDnl_eq _ _ _ hfd
              simp only [List.cons_append] at this
              exact (List.cons.injEq _ _ _ _ ▸ this).1
            have hcne : ¬(c = '\n' ∧ e = '\n') := by
              rw [← hde]; exact hc
            simp only [findDnl, if_neg hcne, hpre']

theorem findDnl_decomp_isSome : ∀ (a b : List Char),
    (findDnl (a ++ '\n' :: '\n' :: b)).isSome = true := by
  intro a
  induction a with
  | nil => intro b; simp [findDnl]
  | cons c a' ih =>
    intro b
    cases ha : a' ++ '\n' :: '\n' :: b with
    | nil => simp at ha
    | cons d rest =>
      simp only [List.cons_append, ha]
      by_cases hc : c = '\n' ∧ d = '\n'
      · simp [findDnl, hc]
      · simp only [findDnl, if_neg hc]
        have := ih b
        rw [ha] at this
        cases hfd : findDnl (d :: rest) with
        | none => rw [hfd] at this; simp at this
        | some pp => obtain ⟨pre, post⟩ := pp; simp

theorem splitDnlAux_none : ∀ (l acc : List Char), findDnl l = none →
    splitDnlAux acc l = [acc.reverse ++ l] := by
  intro l
  induction l with
  | nil => intro acc h; simp [splitDnlAux]
  | cons c cs ih =>
    intro acc h
    cases cs with
    | nil => simp [splitDnlAux]
    | cons d rest =>
      by_cases hc : c = '\n' ∧ d = '\n'
      · simp [findDnl, if_pos hc] at h
      · simp only [findDnl, if_neg hc] at h
        cases hfd : findDnl (d :: rest) with
        | none =>
          simp only [splitDnlAux, if_neg hc]
          rw [ih (c :: acc) hfd]
          simp
        | some pp => obtain ⟨pre, post⟩ := pp; rw [hfd] at h; simp at h

theorem splitDnlAux_some : ∀ (l pre post acc : List Char),
    findDnl l = some (pre, post) →
    splitDnlAux acc l = (acc.reverse ++ pre) :: splitDnl post := by
  intro l
  induction l with
  | nil => intro pre post acc h; simp [findDnl] at h
  | cons c cs ih =>
    intro pre post acc h
    cases cs with
    | nil => simp [findDnl] at h
    | cons d rest =>
      by_cases hc : c = '\n' ∧ d = '\n'
      · simp only [findDnl, if_pos hc] at h
        injection h with h'
        injection h' with h1 h2
        subst h1 h2
        simp [splitDnlAux, if_pos hc, splitDnl]
      · simp only [findDnl, if_neg hc] at h
        cases hfd : findDnl (d :: rest) with
        | none => rw [hfd] at h; simp at h
        | some pp =>
          obtain ⟨pre', post'⟩ := pp
          rw [hfd] at h
          simp only [Option.some.injEq, Prod.mk.injEq] at h
          obtain ⟨h1, h2⟩ := h
          subst h1 h2
          simp only [splitDnlAux, if_neg hc]
          rw [ih pre' post' (c :: acc) hfd]
          simp

theorem splitDnlAux_ne_nil : ∀ (l acc : List Char), splitDnlAux acc l ≠ [] := by
  intro l
  induction l with
  | nil => intro acc; simp [splitDnlAux]
  | cons c cs ih =>
    intro acc
    cases cs with
    | nil => simp [splitDnlAux]
    | cons d rest =>
      by_cases hc : c = '\n' ∧ d = '\n'
      · simp [splitDnlAux, if_pos hc]
      · simp only [splitDnlAux, if_neg hc]
        exact ih (c :: acc)

theorem joinDnl_splitDnl : ∀ l : List Char, joinDnl (splitDnl l) = l := by
  intro l
  generalize hn : l.length = n
  induction n using Nat.strong_induction_on generalizing l with
  | _ n ih =>
    cases hfd : findDnl l with
    | none => rw [splitDnl, splitDnlAux_none l [] hfd]; simp [joinDnl]
    | some pp =>
      obtain ⟨pre, post⟩ := pp
      rw [splitDnl, splitDnlAux_some l pre post [] hfd]
      have hl := findDnl_eq l pre post hfd
      have hlen : post.length < n := by
        subst hn; rw [hl]; simp only [List.length_append, List.length_cons]; omega
      have hjoin : joinDnl (splitDnl post) = post := ih post.length hlen post rfl
      cases hsp : splitDnl post with
      | nil => exact absurd hsp (splitDnlAux_ne_nil post [])
      | cons x xs =>
        rw [hsp] at hjoin
        simp only [List.reverse_nil, List.nil_append]
        rw [joinDnl, hjoin, hl]

theorem splitReply_of_findDnl_some (s : String) (pre post : List Char)
    (h : findDnl s.data = some (pre, post)) :
    splitReply s = (⟨pre⟩, ⟨post⟩) := by
  rw [splitReply, splitDnl, splitDnlAux_some s.data pre post [] h]
  simp only [List.reverse_nil, List.nil_append, List.headD_cons, List.tail_cons]
  rw [joinDnl_splitDnl post]

theorem splitReply_of_findDnl_none (s : String) (h : findDnl s.data = none) :
    splitReply s = (s, "") := by
  rw [splitReply, splitDnl, splitDnlAux_none s.data [] h]
  simp only [List.reverse_nil, List.nil_append, List.headD_cons, List.tail_cons]
  constructor

/-! ## Lemmas about whitespace normalization -/

theorem allWsSpace_cons {c : Char} {cs : List Char} :
    allWsSpace (c :: cs) = ((!isJsWs c || c = ' ') && allWsSpace cs) := rfl

theorem noAdjWs_cons2 {c d : Char} {rest : List Char} :
    noAdjWs (c :: d :: rest) = ((!(isJsWs c && isJsWs d)) && noAdjWs (d :: rest)) := rfl

theorem collapseAux_ws_true {c : Char} (cs : List Char) (hw : isJsWs c = true) :
    collapseAux true (c :: cs) = collapseAux true cs := by
  simp [collapseAux, hw]

theorem collapseAux_ws_false {c : Char} (cs : List Char) (hw : isJsWs c = true) :
    collapseAux false (c :: cs) = ' ' :: collapseAux true cs := by
  simp [collapseAux, hw]

theorem collapseAux_not_ws {c : Char} (cs : List Char) (b : Bool) (hw : isJsWs c = false) :
    collapseAux b (c :: cs) = c :: collapseAux false cs := by
  simp [collapseAux, hw]

theorem dropTrailingWs_cons_nil {c : Char} {cs : List Char}
    (hr : dropTrailingWs cs = []) :
    dropTrailingWs (c :: cs) = if isJsWs c then [] else [c] := by
  simp only [dropTrailingWs, hr]

theorem dropTrailingWs_cons_cons {c x : Char} {cs xs : List Char}
    (hr : dropTrailingWs cs = x :: xs) :
    dropTrailingWs (c :: cs) = c :: x :: xs := by
  simp only [dropTrailingWs, hr]

theorem noAdjWs_tail : ∀ {l : List Char}, noAdjWs l = true → noAdjWs l.tail = true := by
  intro l h
  match l with
  | [] => simp [noAdjWs]
  | [c] => simp [noAdjWs]
  | c :: d :: rest =>
    rw [noAdjWs_cons2, Bool.and_eq_true] at h
    exact h.2

theorem collapseAux_allWsSpace : ∀ (l : List Char) (b : Bool),
    allWsSpace (collapseAux b l) = true := by
  intro l
  induction l with
  | nil => intro b; simp [collapseAux, allWsSpace]
  | cons c cs ih =>
    intro b
    by_cases hw : isJsWs c = true
    · cases b with
      | true => rw [collapseAux_ws_true cs hw]; exact ih true
      | false =>
        rw [collapseAux_ws_false cs hw, allWsSpace_cons, Bool.and_eq_true]
        exact ⟨by simp, ih true⟩
    · rw [collapseAux_not_ws cs b (eq_false_of_ne_true hw), allWsSpace_cons, Bool.and_eq_true]
      exact ⟨by simp [hw], ih false⟩

theorem collapseAux_head_true : ∀ (l : List Char) (c : Char),
    (collapseAux true l).head? = some c → isJsWs c = false := by
  intro l
  induction l with
  | nil => intro c h; simp [collapseAux] at h
  | cons x xs ih =>
    intro c h
    by_cases hw : isJsWs x = true
    · rw [collapseAux_ws_true xs hw] at h
      exact ih c h
    · rw [collapseAux_not_ws xs true (eq_false_of_ne_true hw)] at h
      simp only [List.head?_cons, Option.some.injEq] at h
      subst h
      exact eq_false_of_ne_true hw

theorem collapseAux_noAdjWs : ∀ (l : List Char) (b : Bool),
    noAdjWs (collapseAux b l) = true := by
  intro l
  induction l with
  | nil => intro b; simp [collapseAux, noAdjWs]
  | cons c cs ih =>
    intro b
    by_cases hw : isJsWs c = true
    · cases b with
      | true => rw [collapseAux_ws_true cs hw]; exact ih true
      | false =>
        rw [collapseAux_ws_false cs hw]
        cases hx : collapseAux true cs with
        | nil => simp [noAdjWs]
        | cons x xs =>
          rw [noAdjWs_cons2, Bool.and_eq_true]
          have hxw : isJsWs x = false := by
            apply collapseAux_head_true cs
            rw [hx]; rfl
          refine ⟨by simp [hxw], ?_⟩
          rw [← hx]; exact ih true
    · rw [collapseAux_not_ws cs b (eq_false_of_ne_true hw)]
      cases hx : collapseAux false cs with
      | nil => simp [noAdjWs]
      | cons x xs =>
        rw [noAdjWs_cons2, Bool.and_eq_true]
        refine ⟨by simp [hw], ?_⟩
        rw [← hx]; exact ih false

theorem collapseAux_fixed : ∀ (l : List Char),
    allWsSpace l = true → noAdjWs l = true →
    collapseAux false l = l ∧
    ((∀ c, l.head? = some c → isJsWs c = false) → collapseAux true l = l) := by
  intro l
  induction l with
  | nil => intro _ _; exact ⟨rfl, fun _ => rfl⟩
  | cons c cs ih =>
    intro hall hadj
    rw [allWsSpace_cons, Bool.and_eq_true] at hall
    obtain ⟨hc, hcs⟩ := hall
    have hadjcs : noAdjWs cs = true := noAdjWs_tail hadj
    by_cases hw : isJsWs c = true
    · have hsp : c = ' ' := by
        rw [hw] at hc; simpa using hc
      have hhead : ∀ x, cs.head? = some x → isJsWs x = false := by
        intro x hx
        cases cs with
        | nil => simp at hx
        | cons y ys =>
          simp only [List.head?_cons, Option.some.injEq] at hx
          subst hx
          rw [noAdjWs_cons2, Bool.and_eq_true] at hadj
          have := hadj.1
          rw [hw] at this
          simpa using this
      have htrue : collapseAux true cs = cs := (ih hcs hadjcs).2 hhead
      constructor
      · rw [collapseAux_ws_false cs hw, htrue, hsp]
      · intro hh
        have := hh c (by rfl)
        rw [hw] at this; simp at this
    · have hfalse : collapseAux false cs = cs := (ih hcs hadjcs).1
      have hnot := eq_false_of_ne_true hw
      constructor
      · rw [collapseAux_not_ws cs false hnot, hfalse]
      · intro _; rw [collapseAux_not_ws cs true hnot, hfalse]

theorem dropWhile_allWsSpace : ∀ (l : List Char), allWsSpace l = true →
    allWsSpace (l.dropWhile isJsWs) = true := by
  intro l
  induction l with
  | nil => intro h; simpa using h
  | cons c cs ih =>
    intro h
    rw [allWsSpace_cons, Bool.and_eq_true] at h
    by_cases hw : isJsWs c = true
    · rw [List.dropWhile_cons_of_pos hw]
      exact ih h.2
    · rw [List.dropWhile_cons_of_neg (by simp [hw])]
      rw [allWsSpace_cons, Bool.and_eq_true]
      exact h

theorem dropWhile_noAdjWs : ∀ (l : List Char), noAdjWs l = true →
    noAdjWs (l.dropWhile isJsWs) = true := by
  intro l
  induction l with
  | nil => intro h; simpa using h
  | cons c cs ih =>
    intro h
    by_cases hw : isJsWs c = true
    · rw [List.dropWhile_cons_of_pos hw]
      exact ih (noAdjWs_tail h)
    · rw [List.dropWhile_cons_of_neg (by simp [hw])]
      exact h

theorem dropWhile_head_not_ws : ∀ (l : List Char) (c : Char),
    (l.dropWhile isJsWs).head? = some c → isJsWs c = false := by
  intro l
  induction l with
  | nil => intro c h; simp at h
  | cons x xs ih =>
    intro c h
    by_cases hw : isJsWs x = true
    · rw [List.dropWhile_cons_of_pos hw] at h
      exact ih c h
    · rw [List.dropWhile_cons_of_neg (by simp [hw])] at h
      simp only [List.head?_cons, Option.some.injEq] at h
      subst h
      exact eq_false_of_ne_true hw

theorem dropTrailingWs_head : ∀ (l : List Char),
    dropTrailingWs l = [] ∨ (dropTrailingWs l).head? = l.head? := by
  intro l
  induction l with
  | nil => left; rfl
  | cons c cs ih =>
    cases hr : dropTrailingWs cs with
    | nil =>
      by_cases hw : isJsWs c = true
      · left; rw [dropTrailingWs_cons_nil hr, if_pos hw]
      · right; rw [dropTrailingWs_cons_nil hr, if_neg hw]; rfl
    | cons x xs =>
      right
      rw [dropTrailingWs_cons_cons hr]; rfl

theorem dropTrailingWs_allWsSpace : ∀ (l : List Char), allWsSpace l = true →
    allWsSpace (dropTrailingWs l) = true := by
  intro l
  induction l with
  | nil => intro h; simpa using h
  | cons c cs ih =>
    intro h
    rw [allWsSpace_cons, Bool.and_eq_true] at h
    cases hr : dropTrailingWs cs with
    | nil =>
      rw [dropTrailingWs_cons_nil hr]
      by_cases hw : isJsWs c = true
      · rw [if_pos hw]; rfl
      · rw [if_neg hw, allWsSpace_cons, Bool.and_eq_true]
        exact ⟨h.1, rfl⟩
    | cons x xs =>
      have := ih h.2
      rw [hr] at this
      rw [dropTrailingWs_cons_cons hr, allWsSpace_cons, Bool.and_eq_true]
      exact ⟨h.1, this⟩

theorem dropTrailingWs_noAdjWs : ∀ (l : List Char), noAdjWs l = true →
    noAdjWs (dropTrailingWs l) = true := by
  intro l
  induction l with
  | nil => intro h; simpa using h
  | cons c cs ih =>
    intro h
    cases hr : dropTrailingWs cs with
    | nil =>
      rw [dropTrailingWs_cons_nil hr]
      by_cases hw : isJsWs c = true
      · rw [if_pos hw]; rfl
      · rw [if_neg hw]; rfl
    | cons x xs =>
      have hcs := ih (noAdjWs_tail h)
      rw [hr] at hcs
      rw [dropTrailingWs_cons_cons hr, noAdjWs_cons2, Bool.and_eq_true]
      refine ⟨?_, hcs⟩
      have hx : cs.head? = some x := by
        cases dropTrailingWs_head cs with
        | inl h0 => rw [h0] at hr; simp at hr
        | inr h0 => rw [hr] at h0; exact h0.symm
      cases cs with
      | nil => simp at hx
      | cons y ys =>
        simp only [List.head?_cons, Option.some.injEq] at hx
        subst hx
        rw [noAdjWs_cons2, Bool.and_eq_true] at h
        simpa using h.1

theorem dropTrailingWs_idem : ∀ (l : List Char),
    dropTrailingWs (dropTrailingWs l) = dropTrailingWs l := by
  intro l
  induction l with
  | nil => rfl
  | cons c cs ih =>
    cases hr : dropTrailingWs cs with
    | nil =>
      rw [dropTrailingWs_cons_nil hr]
      by_cases hw : isJsWs c = true
      · rw [if_pos hw]; rfl
      · rw [if_neg hw]
        have : dropTrailingWs ([] : List Char) = [] := rfl
        rw [dropTrailingWs_cons_nil this, if_neg hw]
    | cons x xs =>
      rw [hr] at ih
      rw [dropTrailingWs_cons_cons hr]
      rw [dropTrailingWs_cons_cons (ih.trans rfl)]

theorem dropWhile_eq_self_of_head : ∀ (l : List Char),
    (∀ c, l.head? = some c → isJsWs c = false) → l.dropWhile isJsWs = l := by
  intro l h
  cases l with
  | nil => rfl
  | cons c cs =>
    have := h c rfl
    rw [List.dropWhile_cons_of_neg (by simp [this])]

/-! ## Lemmas about the agents and the orchestrator -/

theorem webAgent_ok_trace (env : Env) (url question : String)
    (h : (webAgent env url question).2.isOk = true) :
    (webAgent env url question).1 = [ModelCall.webAnalysis url] := by
  cases hf : fetchWebPage env url with
  | error e => simp [webAgent, hf, Except.isOk, Except.toBool] at h
  | ok page =>
    cases hm : env.model (ModelCall.webAnalysis url) (webAgentUserContent page url question) with
    | error e => simp [webAgent, hf, hm]
    | ok reply => simp [webAgent, hf, hm]

theorem pdfAgent_ok_trace (env : Env) (pdfPath question : String)
    (h : (pdfAgent env pdfPath question).2.isOk = true) :
    (pdfAgent env pdfPath question).1 = [ModelCall.pdfAnalysis pdfPath] := by
  cases hf : parsePdfFile env pdfPath with
  | error e => simp [pdfAgent, hf, Except.isOk, Except.toBool] at h
  | ok parsed =>
    cases hm : env.model (ModelCall.pdfAnalysis pdfPath) (pdfAgentUserContent parsed question) with
    | error e => simp [pdfAgent, hf, hm]
    | ok reply => simp [pdfAgent, hf, hm]

theorem webAgent_no_synthesis (env : Env) (url question : String) :
    ModelCall.synthesis ∉ (webAgent env url question).1 := by
  cases hf : fetchWebPage env url with
  | error e => simp [webAgent, hf]
  | ok page =>
    cases hm : env.model (ModelCall.webAnalysis url) (webAgentUserContent page url question) with
    | error e => simp [webAgent, hf, hm]
    | ok reply => simp [webAgent, hf, hm]

theorem pdfAgent_no_synthesis (env : Env) (pdfPath question : String) :
    ModelCall.synthesis ∉ (pdfAgent env pdfPath question).1 := by
  cases hf : parsePdfFile env pdfPath with
  | error e => simp [pdfAgent, hf]
  | ok parsed =>
    cases hm : env.model (ModelCall.pdfAnalysis pdfPath) (pdfAgentUserContent parsed question) with
    | error e => simp [pdfAgent, hf, hm]
    | ok reply => simp [pdfAgent, hf, hm]

theorem collectWeb_ok (env : Env) (query : String) :
    ∀ (urls : List String) (calls : List ModelCall) (ctx srcs : List String),
    collectWeb env query urls = (calls, Except.ok (ctx, srcs)) →
    calls = urls.map ModelCall.webAnalysis ∧ srcs = urls := by
  intro urls
  induction urls with
  | nil =>
    intro calls ctx srcs h
    simp only [collectWeb, Prod.mk.injEq, Except.ok.injEq] at h
    obtain ⟨h1, h2, h3⟩ := h
    subst h1
    subst h3
    simp
  | cons url rest ih =>
    intro calls ctx srcs h
    cases hw : webAgent env url query with
    | mk t r =>
      cases r with
      | error e =>
        rw [collectWeb, hw] at h
        simp at h
      | ok result =>
        cases hc : collectWeb env query rest with
        | mk ts rs =>
          cases rs with
          | error e =>
            rw [collectWeb, hw, hc] at h
            simp at h
          | ok pair =>
            obtain ⟨ctx', srcs'⟩ := pair
            rw [collectWeb, hw, hc] at h
            simp only [Prod.mk.injEq, Except.ok.injEq] at h
            obtain ⟨h1, h2, h3⟩ := h
            subst h1
            subst h3
            obtain ⟨hm, hs⟩ := ih ts ctx' srcs' hc
            subst hm
            subst hs
            have ht : t = [ModelCall.webAnalysis url] := by
              have hx := webAgent_ok_trace env url query (by rw [hw]; rfl)
              rw [hw] at hx
              exact hx
            subst ht
            simp

theorem collectPdf_ok (env : Env) (query : String) :
    ∀ (pdfPaths : List String) (calls : List ModelCall) (ctx srcs : List String),
    collectPdf env query pdfPaths = (calls, Except.ok (ctx, srcs)) →
    calls = pdfPaths.map ModelCall.pdfAnalysis ∧ srcs = pdfPaths := by
  intro pdfPaths
  induction pdfPaths with
  | nil =>
    intro calls ctx srcs h
    simp only [collectPdf, Prod.mk.injEq, Except.ok.injEq] at h
    obtain ⟨h1, h2, h3⟩ := h
    subst h1
    subst h3
    simp
  | cons pdfPath rest ih =>
    intro calls ctx srcs h
    cases hw : pdfAgent env pdfPath query with
    | mk t r =>
      cases r with
      | error e =>
        rw [collectPdf, hw] at h
        simp at h
      | ok result =>
        cases hc : collectPdf env query rest with
        | mk ts rs =>
          cases rs with
          | error e =>
            rw [collectPdf, hw, hc] at h
            simp at h
          | ok pair =>
            obtain ⟨ctx', srcs'⟩ := pair
            rw [collectPdf, hw, hc] at h
            simp only [Prod.mk.injEq, Except.ok.injEq] at h
            obtain ⟨h1, h2, h3⟩ := h
            subst h1
            subst h3
            obtain ⟨hm, hs⟩ := ih ts ctx' srcs' hc
            subst hm
            subst hs
            have ht : t = [ModelCall.pdfAnalysis pdfPath] := by
              have hx := pdfAgent_ok_trace env pdfPath query (by rw [hw]; rfl)
              rw [hw] at hx
              exact hx
            subst ht
            simp

theorem collectWeb_error_at (env : Env) (query : String) (e : LuError) :
    ∀ (us₁ : List String) (u : String) (us₂ : List String),
    (∀ u' ∈ us₁, (webAgent env u' query).2.isOk = true) →
    (webAgent env u query).2 = Except.error e →
    collectWeb env query (us₁ ++ u :: us₂) =
      (us₁.map ModelCall.webAnalysis ++ (webAgent env u query).1, Except.error e) := by
  intro us₁
  induction us₁ with
  | nil =>
    intro u us₂ _ herr
    cases hw : webAgent env u query with
    | mk t r =>
      have hr : r = Except.error e := by rw [hw] at herr; exact herr
      subst hr
      simp only [List.nil_append, List.map_nil]
      rw [collectWeb, hw]
  | cons u' us₁' ih =>
    intro u us₂ hok herr
    have hok' : (webAgent env u' query).2.isOk = true := hok u' (by simp)
    cases hw : webAgent env u' query with
    | mk t' r' =>
      cases r' with
      | error e' =>
        rw [hw] at hok'
        simp [Except.isOk, Except.toBool] at hok'
      | ok result =>
        have ht' : t' = [ModelCall.webAnalysis u'] := by
          have hx := webAgent_ok_trace env u' query (by rw [hw]; rfl)
          rw [hw] at hx
          exact hx
        subst ht'
        have hrec := ih u us₂ (fun x hx => hok x (by simp [hx])) herr
        simp only [List.cons_append]
        rw [collectWeb, hw, hrec]
        simp

theorem collectPdf_error_at (env : Env) (query : String) (e : LuError) :
    ∀ (ps₁ : List String) (p : String) (ps₂ : List String),
    (∀ p' ∈ ps₁, (pdfAgent env p' query).2.isOk = true) →
    (pdfAgent env p query).2 = Except.error e →
    collectPdf env query (ps₁ ++ p :: ps₂) =
      (ps₁.map ModelCall.pdfAnalysis ++ (pdfAgent env p query).1, Except.error e) := by
  intro ps₁
  induction ps₁ with
  | nil =>
    intro p ps₂ _ herr
    cases hw : pdfAgent env p query with
    | mk t r =>
      have hr : r = Except.error e := by rw [hw] at herr; exact herr
      subst hr
      simp only [List.nil_append, List.map_nil]
      rw [collectPdf, hw]
  | cons p' ps₁' ih =>
    intro p ps₂ hok herr
    have hok' : (pdfAgent env p' query).2.isOk = true := hok p' (by simp)
    cases hw : pdfAgent env p' query with
    | mk t' r' =>
      cases r' with
      | error e' =>
        rw [hw] at hok'
        simp [Except.isOk, Except.toBool] at hok'
      | ok result =>
        have ht' : t' = [ModelCall.pdfAnalysis p'] := by
          have hx := pdfAgent_ok_trace env p' query (by rw [hw]; rfl)
          rw [hw] at hx
          exact hx
        subst ht'
        have hrec := ih p ps₂ (fun x hx => hok x (by simp [hx])) herr
        simp only [List.cons_append]
        rw [collectPdf, hw, hrec]
        simp

theorem collectWeb_all_ok (env : Env) (query : String) :
    ∀ (urls : List String), (∀ u ∈ urls, (webAgent env u query).2.isOk = true) →
    ∃ ctx srcs, collectWeb env query urls =
      (urls.map ModelCall.webAnalysis, Except.ok (ctx, srcs)) := by
  intro urls
  induction urls with
  | nil => intro _; exact ⟨[], [], rfl⟩
  | cons url rest ih =>
    intro hok
    obtain ⟨ctx', srcs', hc⟩ := ih (fun x hx => hok x (by simp [hx]))
    have h1 : (webAgent env url query).2.isOk = true := hok url (by simp)
    cases hw : webAgent env url query with
    | mk t r =>
      cases r with
      | error e =>
        rw [hw] at h1
        simp [Except.isOk, Except.toBool] at h1
      | ok result =>
        have ht : t = [ModelCall.webAnalysis url] := by
          have hx := webAgent_ok_trace env url query (by rw [hw]; rfl)
          rw [hw] at hx
          exact hx
        subst ht
        refine ⟨webBlock url result :: ctx', url :: srcs', ?_⟩
        rw [collectWeb, hw, hc]
        simp

/-! ## Claim theorems -/

/-- C1: for a CaseInput with N urls and M pdfPaths, a successful
`orchestrate` call issues exactly N + M analysis model calls — one per
URL in input order, then one per PDF path in input order — followed by
exactly one synthesis call; in particular with empty urls and pdfPaths
exactly the one synthesis call is issued. -/
theorem C1_orchestrate_model_calls (env : Env) (input : CaseInput)
    (h : (orchestrate env input).2.isOk = true) :
    (orchestrate env input).1 =
      (input.urls.getD []).map ModelCall.webAnalysis ++
      (input.pdfPaths.getD []).map ModelCall.pdfAnalysis ++ [ModelCall.synthesis] ∧
    (input.urls.getD [] = [] → input.pdfPaths.getD [] = [] →
      (orchestrate env input).1 = [ModelCall.synthesis]) := by
  have hmain : (orchestrate env input).1 =
      (input.urls.getD []).map ModelCall.webAnalysis ++
      (input.pdfPaths.getD []).map ModelCall.pdfAnalysis ++ [ModelCall.synthesis] := by
    cases hw : collectWeb env input.query (input.urls.getD []) with
    | mk wt wr =>
      cases wr with
      | error e =>
        rw [orchestrate, hw] at h
        simp [Except.isOk, Except.toBool] at h
      | ok wpair =>
        obtain ⟨wCtx, wSrcs⟩ := wpair
        cases hp : collectPdf env input.query (input.pdfPaths.getD []) with
        | mk pt pr =>
          cases pr with
          | error e =>
            rw [orchestrate, hw, hp] at h
            simp [Except.isOk, Except.toBool] at h
          | ok ppair =>
            obtain ⟨pCtx, pSrcs⟩ := ppair
            obtain ⟨hwt, hws⟩ := collectWeb_ok env input.query _ wt wCtx wSrcs hw
            obtain ⟨hpt, hps⟩ := collectPdf_ok env input.query _ pt pCtx pSrcs hp
            rw [orchestrate, hw, hp]
            cases hm : env.model ModelCall.synthesis
                (synthesisUserContent input.query (joinContextParts (wCtx ++ pCtx))) with
            | error e => simp [hm, hwt, hpt]
            | ok fullText => simp [hm, hwt, hpt]
  refine ⟨hmain, fun h1 h2 => ?_⟩
  rw [hmain, h1, h2]
  simp

/-- C1 witness: with one URL and one PDF under a fully successful
oracle, the trace is the web-analysis call, the PDF-analysis call, then
the synthesis call. -/
theorem C1_orchestrate_model_calls_witness :
    (orchestrate envOk caseBoth).1 =
      [ModelCall.webAnalysis "https://a", ModelCall.pdfAnalysis "cnis.pdf",
       ModelCall.synthesis] :=
  ((C1_orchestrate_model_calls envOk caseBoth (by decide)).1).trans (by decide)

/-- C2: the `sources` of a successful `orchestrate` result is the
concatenation of the input urls then the input pdfPaths, in input order,
duplicates preserved; absent lists contribute nothing. -/
theorem C2_orchestrate_sources (env : Env) (input : CaseInput) (r : CaseResult)
    (h : (orchestrate env input).2 = Except.ok r) :
    r.sources = input.urls.getD [] ++ input.pdfPaths.getD [] := by
  cases hw : collectWeb env input.query (input.urls.getD []) with
  | mk wt wr =>
    cases wr with
    | error e =>
      rw [orchestrate, hw] at h
      simp at h
    | ok wpair =>
      obtain ⟨wCtx, wSrcs⟩ := wpair
      cases hp : collectPdf env input.query (input.pdfPaths.getD []) with
      | mk pt pr =>
        cases pr with
        | error e =>
          rw [orchestrate, hw, hp] at h
          simp at h
        | ok ppair =>
          obtain ⟨pCtx, pSrcs⟩ := ppair
          obtain ⟨hwt, hws⟩ := collectWeb_ok env input.query _ wt wCtx wSrcs hw
          obtain ⟨hpt, hps⟩ := collectPdf_ok env input.query _ pt pCtx pSrcs hp
          rw [orchestrate, hw, hp] at h
          cases hm : env.model ModelCall.synthesis
              (synthesisUserContent input.query (joinContextParts (wCtx ++ pCtx))) with
          | error e => simp [hm] at h
          | ok fullText =>
            simp only [hm, Except.ok.injEq] at h
            rw [← h]
            rw [hws, hps]

/-- C2 witness: a duplicated URL appears twice in `sources`, followed by
the PDF path. -/
theorem C2_orchestrate_sources_witness :
    caseDupResult.sources = ["https://a", "https://a", "cnis.pdf"] :=
  (C2_orchestrate_sources envOk caseDup caseDupResult (by decide)).trans (by decide)

/-- C3: `orchestrate` splits the synthesis reply at the first double
newline: when `findDnl` locates that first boundary (dnl-free prefix),
the decision is exactly the text before it and the reasoning exactly the
text after it; a reply with no double newline becomes the whole-reply
decision with empty reasoning; concretely the reply "A\n\nB\n\nC" gives
decision "A" and reasoning "B\n\nC". -/
theorem C3_decision_reasoning_split :
    (∀ (s : String) (pre post : List Char), findDnl s.data = some (pre, post) →
        s.data = pre ++ '\n' :: '\n' :: post ∧ findDnl pre = none ∧
        splitReply s = (⟨pre⟩, ⟨post⟩)) ∧
    (∀ s : String, findDnl s.data = none → splitReply s = (s, "")) ∧
    splitReply "A\n\nB\n\nC" = ("A", "B\n\nC") := by
  refine ⟨?_, ?_, by decide⟩
  · intro s pre post h
    exact ⟨findDnl_eq s.data pre post h, findDnl_pre_none s.data pre post h,
      splitReply_of_findDnl_some s pre post h⟩
  · intro s h
    exact splitReply_of_findDnl_none s h

/-- C3 witness: the split of a two-paragraph reply. -/
theorem C3_decision_reasoning_split_witness :
    splitReply "DECISÃO\n\nFUNDAMENTAÇÃO" = ("DECISÃO", "FUNDAMENTAÇÃO") :=
  (C3_decision_reasoning_split.1 "DECISÃO\n\nFUNDAMENTAÇÃO"
    "DECISÃO".data "FUNDAMENTAÇÃO".data (by decide)).2.2

/-- C4: when one per-URL or per-PDF step fails (all earlier steps
succeeding), `orchestrate` fails with that same error unchanged and
returns no CaseResult; the trace stops at the failing step — later
steps are not attempted, nothing is retried, and no synthesis call is
ever issued. -/
theorem C4_step_failure_aborts_case (env : Env) (input : CaseInput) (e : LuError) :
    (∀ (us₁ : List String) (u : String) (us₂ : List String),
      input.urls.getD [] = us₁ ++ u :: us₂ →
      (∀ u' ∈ us₁, (webAgent env u' input.query).2.isOk = true) →
      (webAgent env u input.query).2 = Except.error e →
      orchestrate env input =
        (us₁.map ModelCall.webAnalysis ++ (webAgent env u input.query).1,
         Except.error e) ∧
      ModelCall.synthesis ∉ (orchestrate env input).1) ∧
    (∀ (ps₁ : List String) (p : String) (ps₂ : List String),
      input.pdfPaths.getD [] = ps₁ ++ p :: ps₂ →
      (∀ u' ∈ input.urls.getD [], (webAgent env u' input.query).2.isOk = true) →
      (∀ p' ∈ ps₁, (pdfAgent env p' input.query).2.isOk = true) →
      (pdfAgent env p input.query).2 = Except.error e →
      orchestrate env input =
        ((input.urls.getD []).map ModelCall.webAnalysis ++
           ps₁.map ModelCall.pdfAnalysis ++ (pdfAgent env p input.query).1,
         Except.error e) ∧
      ModelCall.synthesis ∉ (orchestrate env input).1) := by
  constructor
  · intro us₁ u us₂ hsplit hok herr
    have hcw := collectWeb_error_at env input.query e us₁ u us₂ hok herr
    have hA : orchestrate env input =
        (us₁.map ModelCall.webAnalysis ++ (webAgent env u input.query).1,
         Except.error e) := by
      rw [orchestrate, hsplit, hcw]
    refine ⟨hA, ?_⟩
    rw [hA]
    intro hmem
    rcases List.mem_append.mp hmem with hin | hin
    · rcases List.mem_map.mp hin with ⟨x, _, hx⟩
      exact absurd hx (by simp)
    · exact webAgent_no_synthesis env u input.query hin
  · intro ps₁ p ps₂ hsplit hokw hokp herr
    obtain ⟨wCtx, wSrcs, hcw⟩ := collectWeb_all_ok env input.query (input.urls.getD []) hokw
    have hcp := collectPdf_error_at env input.query e ps₁ p ps₂ hokp herr
    have hA : orchestrate env input =
        ((input.urls.getD []).map ModelCall.webAnalysis ++
           ps₁.map ModelCall.pdfAnalysis ++ (pdfAgent env p input.query).1,
         Except.error e) := by
      rw [orchestrate, hcw, hsplit, hcp]
      simp [List.append_assoc]
    refine ⟨hA, ?_⟩
    rw [hA]
    intro hmem
    rcases List.mem_append.mp hmem with hin | hin
    · rcases List.mem_append.mp hin with hin2 | hin2
      · rcases List.mem_map.mp hin2 with ⟨x, _, hx⟩
        exact absurd hx (by simp)
      · rcases List.mem_map.mp hin2 with ⟨x, _, hx⟩
        exact absurd hx (by simp)
    · exact pdfAgent_no_synthesis env p input.query hin

/-- C4 witness: the second URL's fetch fails, so `orchestrate` returns
the network error unchanged; the trace holds only the first URL's
analysis call — the PDF is never processed and no synthesis call is
issued. -/
theorem C4_step_failure_aborts_case_witness :
    orchestrate envBadUrl caseBad =
      ([ModelCall.webAnalysis "https://ok"],
       Except.error (LuError.network "timeout of 30000ms exceeded")) ∧
    ModelCall.synthesis ∉ (orchestrate envBadUrl caseBad).1 := by
  have h := (C4_step_failure_aborts_case envBadUrl caseBad
      (LuError.network "timeout of 30000ms exceeded")).1
      ["https://ok"] "https://bad" [] (by decide) (by decide) (by decide)
  exact ⟨h.1.trans (by decide), h.2⟩

/-- C5: both analysis agents truncate the source text to the fixed
constant bound of 150000 characters before embedding it in the prompt:
text at or under the bound passes through unchanged, longer text keeps
exactly its first 150000 characters. -/
theorem C5_agents_truncate (s : String) :
    (s.length ≤ 150000 → webSafeContent s = s ∧ pdfSafeText s = s) ∧
    (150000 < s.length →
      (webSafeContent s).length = 150000 ∧
      webSafeContent s ++ (⟨s.data.drop 150000⟩ : String) = s ∧
      pdfSafeText s = webSafeContent s) := by
  constructor
  · intro hle
    have ht : s.data.take 150000 = s.data := List.take_of_length_le hle
    constructor
    · show (⟨s.data.take 150000⟩ : String) = s
      rw [ht]
    · show (⟨s.data.take 150000⟩ : String) = s
      rw [ht]
  · intro hlt
    refine ⟨?_, ?_, rfl⟩
    · show (s.data.take 150000).length = 150000
      rw [List.length_take]
      exact Nat.min_eq_left (Nat.le_of_lt hlt)
    · show (⟨s.data.take 150000 ++ s.data.drop 150000⟩ : String) = s
      rw [List.take_append_drop]

/-- C5 witness: a short text is unchanged; a 150001-character text is
cut to length 150000 and both agents agree. -/
theorem C5_agents_truncate_witness :
    webSafeContent "CNIS: 35 anos de contribuição" = "CNIS: 35 anos de contribuição" ∧
    (webSafeContent longText).length = 150000 ∧
    pdfSafeText longText = webSafeContent longText := by
  have hlen : 150000 < longText.length := by
    have h1 : longText.length = 150001 := by
      show (List.replicate 150001 'a').length = 150001
      exact List.length_replicate 150001 'a'
    omega
  exact ⟨((C5_agents_truncate "CNIS: 35 anos de contribuição").1 (by decide)).1,
    ((C5_agents_truncate longText).2 hlen).1,
    ((C5_agents_truncate longText).2 hlen).2.2⟩

/-- C6: the whitespace normalization shared by the Page Fetcher and the
Document Parser (collapse every whitespace run to one space, then trim)
is idempotent: normalizing already-normalized text changes nothing. -/
theorem C6_normalizeWs_idempotent (s : String) :
    normalizeWs (normalizeWs s) = normalizeWs s := by
  rw [normalizeWs, normalizeWs, collapseWsRuns, jsTrim]
  set t := collapseAux false s.data with ht
  set u := dropTrailingWs (t.dropWhile isJsWs) with hu
  have hallu : allWsSpace u = true :=
    dropTrailingWs_allWsSpace _ (dropWhile_allWsSpace _ (collapseAux_allWsSpace s.data false))
  have hadju : noAdjWs u = true :=
    dropTrailingWs_noAdjWs _ (dropWhile_noAdjWs _ (collapseAux_noAdjWs s.data false))
  have hheadu : ∀ c, u.head? = some c → isJsWs c = false := by
    intro c hc
    cases dropTrailingWs_head (t.dropWhile isJsWs) with
    | inl h0 =>
      rw [hu, h0] at hc; simp at hc
    | inr h0 =>
      rw [hu, h0] at hc
      exact dropWhile_head_not_ws t c hc
  have hcoll : collapseAux false u = u := (collapseAux_fixed u hallu hadju).1
  show jsTrim (collapseWsRuns ⟨u⟩) = (⟨u⟩ : String)
  rw [collapseWsRuns, jsTrim]
  show (⟨dropTrailingWs ((collapseAux false u).dropWhile isJsWs)⟩ : String) = ⟨u⟩
  rw [hcoll, dropWhile_eq_self_of_head u hheadu]
  rw [hu, dropTrailingWs_idem]

/-- C7: with no ANTHROPIC_API_KEY in the process environment the run
fails at startup with the fatal config error before anything else: the
model-call trace is empty, so no network or model call was attempted
and the missing key can never surface during case processing. -/
theorem C7_missing_key_fails_at_startup (env : Env) (input : CaseInput) :
    runMain none env input =
      ([], Except.error (LuError.configMissing
        "ANTHROPIC_API_KEY is not set. Copy .env.example to .env and add your key.")) := rfl

/-- C8: the Document Parser fails with FileNotFoundError when the path
does not resolve, fails with ParseError when the bytes are not a valid
PDF, and on success returns the whitespace-normalized extracted text
together with the page count. -/
theorem C8_parsePdfFile_contract (env : Env) (filePath : String) :
    (env.readFile (env.resolvePath filePath) = none →
      parsePdfFile env filePath =
        Except.error (LuError.fileNotFound (env.resolvePath filePath))) ∧
    (∀ (buffer : List Nat) (msg : String),
      env.readFile (env.resolvePath filePath) = some buffer →
      env.pdfParse buffer = Except.error msg →
      parsePdfFile env filePath = Except.error (LuError.pdfInvalid msg)) ∧
    (∀ (buffer : List Nat) (data : PdfData),
      env.readFile (env.resolvePath filePath) = some buffer →
      env.pdfParse buffer = Except.ok data →
      parsePdfFile env filePath = Except.ok
        { filePath := env.resolvePath filePath, text := normalizeWs data.text,
          numPages := data.numpages, parsedAt := env.nowIso }) := by
  refine ⟨?_, ?_, ?_⟩
  · intro h
    rw [parsePdfFile]
    rw [h]
  · intro buffer msg h1 h2
    rw [parsePdfFile, h1]
    simp [h2]
  · intro buffer data h1 h2
    rw [parsePdfFile, h1]
    simp [h2]

/-- C8 witness: an unresolvable path, an invalid PDF, and a successful
parse whose text is normalized and whose page count is preserved. -/
theorem C8_parsePdfFile_contract_witness :
    parsePdfFile envPdfMix "missing.pdf" =
      Except.error (LuError.fileNotFound "/abs/missing.pdf") ∧
    parsePdfFile envPdfMix "bad.pdf" =
      Except.error (LuError.pdfInvalid "Invalid PDF structure") ∧
    parsePdfFile envPdfMix "cnis.pdf" = Except.ok
      { filePath := "/abs/cnis.pdf", text := "Nome: João Silva",
        numPages := 3, parsedAt := "2024-01-01T00:00:00.000Z" } := by
  refine ⟨(C8_parsePdfFile_contract envPdfMix "missing.pdf").1 (by decide),
    (C8_parsePdfFile_contract envPdfMix "bad.pdf").2.1 [0] "Invalid PDF structure"
      (by decide) (by decide),
    ((C8_parsePdfFile_contract envPdfMix "cnis.pdf").2.2 [37, 80, 68, 70]
      { text := "Nome:  João  Silva ", numpages := 3 }
      (by decide) (by decide)).trans (by decide)⟩

/-- C9: the decision/reasoning split is lossless: the decision never
contains a double newline; when the reply contains one, decision ++
"\n\n" ++ reasoning reassembles the reply exactly; otherwise the
decision is the whole reply and the reasoning is empty. -/
theorem C9_split_lossless (s : String) :
    (¬ ∃ a b : List Char, (splitReply s).1.data = a ++ '\n' :: '\n' :: b) ∧
    ((∃ a b : List Char, s.data = a ++ '\n' :: '\n' :: b) →
      (splitReply s).1.data ++ '\n' :: '\n' :: (splitReply s).2.data = s.data) ∧
    ((¬ ∃ a b : List Char, s.data = a ++ '\n' :: '\n' :: b) →
      (splitReply s).1 = s ∧ (splitReply s).2 = "") := by
  cases hfd : findDnl s.data with
  | none =>
    have hsp := splitReply_of_findDnl_none s hfd
    refine ⟨?_, ?_, fun _ => by rw [hsp]; exact ⟨rfl, rfl⟩⟩
    · rintro ⟨a, b, hab⟩
      rw [hsp] at hab
      have := findDnl_decomp_isSome a b
      rw [← hab, hfd] at this
      simp at this
    · rintro ⟨a, b, hab⟩
      have := findDnl_decomp_isSome a b
      rw [← hab, hfd] at this
      simp at this
  | some pp =>
    obtain ⟨pre, post⟩ := pp
    have hsp := splitReply_of_findDnl_some s pre post hfd
    have heq := findDnl_eq s.data pre post hfd
    have hprenone := findDnl_pre_none s.data pre post hfd
    refine ⟨?_, fun _ => ?_, fun hno => ?_⟩
    · rintro ⟨a, b, hab⟩
      rw [hsp] at hab
      have := findDnl_decomp_isSome a b
      rw [← hab] at this
      rw [hprenone] at this
      simp at this
    · rw [hsp]
      exact heq.symm
    · exact absurd ⟨pre, post, heq⟩ hno

/-- C9 witness: reassembling a two-paragraph reply from its split. -/
theorem C9_split_lossless_witness :
    (splitReply "1. DECISÃO\n\n2. ANÁLISE\n\n3. RECOMENDAÇÕES").1.data ++ '\n' :: '\n' ::
      (splitReply "1. DECISÃO\n\n2. ANÁLISE\n\n3. RECOMENDAÇÕES").2.data =
      "1. DECISÃO\n\n2. ANÁLISE\n\n3. RECOMENDAÇÕES".data :=
  (C9_split_lossless "1. DECISÃO\n\n2. ANÁLISE\n\n3. RECOMENDAÇÕES").2.1
    ⟨"1. DECISÃO".data, "2. ANÁLISE\n\n3. RECOMENDAÇÕES".data, by decide⟩

/-- C10: an ANTHROPIC_API_KEY set to the empty string is treated exactly
like an unset variable: config loading fails with the same fatal startup
error, so no case processing can begin. -/
theorem C10_empty_key_like_missing (env : Env) (input : CaseInput) :
    runMain (some "") env input = runMain none env input ∧
    loadConfig (some "") = Except.error (LuError.configMissing
      "ANTHROPIC_API_KEY is not set. Copy .env.example to .env and add your key.") :=
  ⟨rfl, rfl⟩

end LuAI
